import Mathlib

/-!
Shallow embedding of the GrindTracker backend calculation engine.

The embedded code comes from `backend/app.py` (the routes `calc_estimate`
and `calc_cascade` together with their helpers `prerequisites_for`,
`all_prerequisites_recursive`, `prev_variant_id_if_any`,
`list_variants_for_parent`, `effective_rp_per_battle`,
`averages_from_recent`) and from the data model in `backend/models.py`.
Python floats are modelled as exact rationals, SQL rows as Lean structures,
and the database tables as lists carried in a `Graph` value.  Python
truthiness tests (`if x:` on numbers and `x or d` defaults) are modelled
explicitly.  The body of the `while` loop of `all_prerequisites_recursive`
is given a fuel parameter; a theorem shows that the fuel bound derived from
the graph is always sufficient, which is the code's termination argument.
The `folder_of` column used throughout `app.py` is absent from the
`Vehicle` model in `models.py`; following the spec's data model it is
embedded as an optional integer reference on the vehicle.
-/

/-- A row of the `vehicles` table (`models.py`), with the optional
`folder_of` variant reference used by `app.py` and described in the spec. -/
structure Vehicle where
  id : Int
  name : String
  rank_id : Int
  br_ab : Option ℚ
  br_rb : Option ℚ
  br_sb : Option ℚ
  rp_cost : Option Int
  ge_cost : Option Int
  folder_of : Option Int
  is_premium : Bool
  is_collector : Bool
deriving Repr, DecidableEq

/-- A row of the `vehicle_edges` table: directed unlock edge parent → child. -/
structure VehicleEdge where
  parent_id : Int
  child_id : Int
  unlock_rp : Option Int
deriving Repr, DecidableEq

/-- The catalog snapshot a request computes over: the vehicles and edges. -/
structure Graph where
  vehicles : List Vehicle
  edges : List VehicleEdge
deriving Repr, DecidableEq

/-- One recent-battle sample from the request body
(`recent_battles` items in `averages_from_recent`). -/
structure Sample where
  rp : ℚ
  minutes : ℚ
  premium : Bool
  booster_percent : Option ℚ
  skill_bonus_percent : Option ℚ
deriving Repr, DecidableEq

/-- One entry of the cascade request's `progress` map. -/
structure ProgressEntry where
  rp_current : Option Int
  done : Bool
deriving Repr, DecidableEq

/-- Body of `POST /api/calc/estimate`. -/
structure EstimateReq where
  vehicle_id : Int
  rp_current : Option Int
  avg_rp_per_battle : Option ℚ
  avg_battle_minutes : Option ℚ
  has_premium : Bool
  booster_percent : Option Int
  skill_bonus_percent : Option Int
  recent_battles : List Sample
deriving Repr, DecidableEq

/-- Body of `POST /api/calc/cascade`; `progress` is the user's per-vehicle
progress map keyed by vehicle id. -/
structure CascadeReq where
  vehicle_id : Int
  has_premium : Bool
  booster_percent : Option Int
  skill_bonus_percent : Option Int
  avg_rp_per_battle : Option ℚ
  avg_battle_minutes : Option ℚ
  recent_battles : List Sample
  progress : List (Int × ProgressEntry)
deriving Repr, DecidableEq

/-- Python `float(x or d)` on an optional number: `None` and `0` both fall
back to the default. -/
def qTruthyD (o : Option ℚ) (d : ℚ) : ℚ :=
  match o with
  | some x => if x = 0 then d else x
  | none => d

/-- `Vehicle.query.get(vid)`: the first (unique, by primary key) vehicle
with the given id. -/
def getVehicle (g : Graph) (vid : Int) : Option Vehicle :=
  g.vehicles.find? (fun v => v.id == vid)

/-- `func.coalesce(Vehicle.br_rb, Vehicle.br_ab, Vehicle.br_sb)`:
first non-NULL battle rating, RB then AB then SB. -/
def coalesce3 (v : Vehicle) : Option ℚ :=
  match v.br_rb with
  | some q => some q
  | none =>
    match v.br_ab with
    | some q => some q
    | none => v.br_sb

/-- Whether the coalesced battle rating is non-NULL (used to model SQLite's
NULLS-first ascending order on the coalesced column). -/
def cbrB (v : Vehicle) : Bool := (coalesce3 v).isSome

/-- The coalesced battle rating's value (0 when all three are NULL). -/
def cbrQ (v : Vehicle) : ℚ := (coalesce3 v).getD 0

/-- The ascending order of `list_variants_for_parent`'s
`order_by(rank_id, coalesce(br_rb, br_ab, br_sb), name)` under the default
SQLite backend: lexicographic on rank, then the coalesced battle rating with
NULL ordered before every numeric value, then name. -/
def sibLE (a b : Vehicle) : Prop :=
  a.rank_id < b.rank_id ∨ (a.rank_id = b.rank_id ∧
    (cbrB a < cbrB b ∨ (cbrB a = cbrB b ∧
      (cbrQ a < cbrQ b ∨ (cbrQ a = cbrQ b ∧ a.name ≤ b.name)))))

instance : DecidableRel sibLE := fun a b => by unfold sibLE; infer_instance

instance : IsTotal Vehicle sibLE := ⟨by
  intro a b
  unfold sibLE
  rcases lt_trichotomy a.rank_id b.rank_id with h | h | h
  · exact Or.inl (Or.inl h)
  · rcases lt_trichotomy (cbrB a) (cbrB b) with h2 | h2 | h2
    · exact Or.inl (Or.inr ⟨h, Or.inl h2⟩)
    · rcases lt_trichotomy (cbrQ a) (cbrQ b) with h3 | h3 | h3
      · exact Or.inl (Or.inr ⟨h, Or.inr ⟨h2, Or.inl h3⟩⟩)
      · rcases le_total a.name b.name with h4 | h4
        · exact Or.inl (Or.inr ⟨h, Or.inr ⟨h2, Or.inr ⟨h3, h4⟩⟩⟩)
        · exact Or.inr (Or.inr ⟨h.symm, Or.inr ⟨h2.symm, Or.inr ⟨h3.symm, h4⟩⟩⟩)
      · exact Or.inr (Or.inr ⟨h.symm, Or.inr ⟨h2.symm, Or.inl h3⟩⟩)
    · exact Or.inr (Or.inr ⟨h.symm, Or.inl h2⟩)
  · exact Or.inr (Or.inl h)⟩

instance : IsTrans Vehicle sibLE := ⟨by
  intro a b c hab hbc
  unfold sibLE at *
  rcases hab with h1 | ⟨e1, hab⟩
  · rcases hbc with h2 | ⟨e2, _⟩
    · exact Or.inl (lt_trans h1 h2)
    · exact Or.inl (e2 ▸ h1)
  · rcases hbc with h2 | ⟨e2, hbc⟩
    · exact Or.inl (e1 ▸ h2)
    · refine Or.inr ⟨e1.trans e2, ?_⟩
      rcases hab with h1 | ⟨f1, hab⟩
      · rcases hbc with h2 | ⟨f2, _⟩
        · exact Or.inl (lt_trans h1 h2)
        · exact Or.inl (f2 ▸ h1)
      · rcases hbc with h2 | ⟨f2, hbc⟩
        · exact Or.inl (f1 ▸ h2)
        · refine Or.inr ⟨f1.trans f2, ?_⟩
          rcases hab with h1 | ⟨g1, hab⟩
          · rcases hbc with h2 | ⟨g2, _⟩
            · exact Or.inl (lt_trans h1 h2)
            · exact Or.inl (g2 ▸ h1)
          · rcases hbc with h2 | ⟨g2, hbc⟩
            · exact Or.inl (g1 ▸ h2)
            · exact Or.inr ⟨g1.trans g2, le_trans hab hbc⟩⟩

/-- `list_variants_for_parent(parent_id)`: the variants sharing
`folder_of == parent_id`, ordered by `(rank_id, coalesced br, name)`. -/
def list_variants_for_parent (g : Graph) (parent_id : Int) : List Vehicle :=
  List.insertionSort sibLE
    (g.vehicles.filter (fun s => s.folder_of == some parent_id))

/-- The scanning loop of `prev_variant_id_if_any`: walk the ordered
siblings, remembering the previous element, and stop at the first element
whose id matches. -/
def prevScan (siblings : List Vehicle) (vid : Int) (prev : Option Vehicle) :
    Option Vehicle :=
  match siblings with
  | [] => prev
  | s :: rest => if s.id = vid then prev else prevScan rest vid (some s)

/-- `prev_variant_id_if_any(v)`: the id of the sibling immediately before
`v` in folder order, or `none`.  Python truthiness makes a `folder_of`
of `0` behave like `None`. -/
def prev_variant_id_if_any (g : Graph) (v : Vehicle) : Option Int :=
  match v.folder_of with
  | none => none
  | some p =>
    if p = 0 then none
    else (prevScan (list_variants_for_parent g p) v.id none).map (fun s => s.id)

/-- `prerequisites_for(vehicle_id)`: immediate parents — edge parents,
the folder parent, and the previous variant (Python set semantics are
modelled by `dedup`; truthiness makes a `0` id behave like `None`). -/
def prerequisites_for (g : Graph) (vid : Int) : List Int :=
  match getVehicle g vid with
  | none => []
  | some v =>
    let edgeParents := (g.edges.filter (fun e => e.child_id == vid)).map
      (fun e => e.parent_id)
    let base :=
      match v.folder_of with
      | none => edgeParents
      | some f =>
        if f = 0 then edgeParents
        else
          let withF := edgeParents ++ [f]
          match prev_variant_id_if_any g v with
          | none => withF
          | some pv => if pv = 0 then withF else withF ++ [pv]
    base.dedup

/-- Every id `prerequisites_for` can ever return lies in this list:
edge parents, folder references, and vehicle ids of the graph. -/
def universeList (g : Graph) : List Int :=
  g.edges.map (fun e => e.parent_id) ++
    g.vehicles.filterMap (fun v => v.folder_of) ++
    g.vehicles.map (fun v => v.id)

/-- The inner `for p in prerequisites_for(cur)` loop of
`all_prerequisites_recursive`: each unvisited prerequisite is added to the
visited set, the accumulated result, and the stack. -/
def aprStep (visited req stack : List Int) :
    List Int → List Int × List Int × List Int
  | [] => (visited, req, stack)
  | p :: ps =>
    if p ∈ visited then aprStep visited req stack ps
    else aprStep (p :: visited) (p :: req) (p :: stack) ps

/-- The `while stack` loop of `all_prerequisites_recursive`, with explicit
fuel.  `none` means the fuel ran out (shown never to happen for the bound
used below). -/
def aprWorker (g : Graph) : Nat → List Int → List Int → List Int →
    Option (List Int)
  | _, _, req, [] => some req
  | 0, _, _, _ :: _ => none
  | fuel + 1, visited, req, cur :: rest =>
    let t := aprStep visited req rest (prerequisites_for g cur)
    aprWorker g fuel t.1 t.2.1 t.2.2

/-- Fuel bound for the traversal: one more than the number of ids that can
ever be enqueued (each iteration pops one stack entry and each entry was
pushed at most once per fresh visited id). -/
def aprBound (g : Graph) : Nat := (universeList g).length + 2

/-- `all_prerequisites_recursive(vehicle_id)`: all transitive prerequisites
of a vehicle, the start excluded, collected with a visited set. -/
def all_prerequisites_recursive (g : Graph) (vid : Int) : List Int :=
  (aprWorker g (aprBound g) [vid] [] [vid]).getD []

/-- `PREMIUM_RP_MULT`: the fixed premium-account multiplier. -/
def PREMIUM_RP_MULT : ℚ := 2

/-- `effective_rp_per_battle` from `app.py`: multiplicative premium /
booster / skill bonuses, floored at 0.  Python truthiness skips a `0`
percent (which is the same as multiplying by `1`). -/
def effective_rp_per_battle (avg_rp_per_battle : ℚ) (has_premium : Bool)
    (booster_percent skill_bonus_percent : Option Int) : ℚ :=
  let m1 : ℚ := 1
  let m2 : ℚ := if has_premium then m1 * PREMIUM_RP_MULT else m1
  let m3 : ℚ :=
    match booster_percent with
    | some b => if b = 0 then m2 else m2 * (1 + (b : ℚ) / 100)
    | none => m2
  let m4 : ℚ :=
    match skill_bonus_percent with
    | some s => if s = 0 then m3 else m3 * (1 + (s : ℚ) / 100)
    | none => m3
  max 0 (avg_rp_per_battle * m4)

/-- The per-sample bonus stack of `averages_from_recent`: the sample's own
premium, booster and skill flags multiplied together. -/
def sampleDenom (s : Sample) : ℚ :=
  let d1 : ℚ := 1
  let d2 : ℚ := if s.premium then d1 * PREMIUM_RP_MULT else d1
  let d3 : ℚ :=
    match s.booster_percent with
    | some b => d2 * (1 + b / 100)
    | none => d2
  match s.skill_bonus_percent with
  | some k => d3 * (1 + k / 100)
  | none => d3

/-- The small constant the denominator is clamped with:
`max(denom, 1e-9)`. -/
def denomEps : ℚ := 1 / 1000000000

/-- The collection loop of `averages_from_recent`: positive-RP samples
contribute their bonus-free RP, positive-minute samples their minutes. -/
def collectRecent : List Sample → List ℚ × List ℚ
  | [] => ([], [])
  | s :: rest =>
    let t := collectRecent rest
    let rp_val := max 0 s.rp
    let m_val := max 0 s.minutes
    let brs := if 0 < rp_val then rp_val / max (sampleDenom s) denomEps :: t.1 else t.1
    let ms := if 0 < m_val then m_val :: t.2 else t.2
    (brs, ms)

/-- `averages_from_recent(data)`: bonus-free average RP per battle, average
battle minutes (defaulting to 9 when no sample has positive minutes), and
the number of positive-RP samples; only the first 5 samples are used. -/
def averages_from_recent (recent : List Sample) : ℚ × ℚ × Nat :=
  let t := collectRecent (recent.take 5)
  (if t.1.isEmpty then 0 else t.1.sum / t.1.length,
   if t.2.isEmpty then 9 else t.2.sum / t.2.length,
   t.1.length)

/-- Python's `round` on a rational: round half to even. -/
def pyRound (x : ℚ) : Int :=
  let f : Int := ⌊x⌋
  let r : ℚ := x - f
  if r < 1 / 2 then f
  else if 1 / 2 < r then f + 1
  else if f % 2 = 0 then f else f + 1

/-- Python's `round(x, 2)` on a rational. -/
def qRound2 (x : ℚ) : ℚ := (pyRound (x * 100) : ℚ) / 100

/-- The successful payload of `POST /api/calc/estimate`. -/
structure EstimateOk where
  vehicle_id : Int
  vehicle_name : String
  rp_cost : Int
  rp_current : Int
  rp_remaining : Int
  avg_rp_round : ℚ
  avg_min_round : ℚ
  samples : Nat
  effective : ℚ
  battles_needed : Option Int
  minutes_needed : Option Int
  hours_needed : Option ℚ
  ge_cost_by_rate : Int
  prerequisite_ids : List Int
deriving Repr, DecidableEq

/-- Result of `POST /api/calc/estimate`: a structured 400 error or the
successful payload. -/
inductive EstimateResult where
  | err (msg : String)
  | ok (r : EstimateOk)
deriving Repr, DecidableEq

/-- `calc_estimate` (`POST /api/calc/estimate`). -/
def calc_estimate (g : Graph) (req : EstimateReq) : EstimateResult :=
  if req.vehicle_id = 0 then .err ("vehicle_id is required")
  else
    match getVehicle g req.vehicle_id with
    | none => .err ("Vehicle not found or rp_cost missing")
    | some v =>
      match v.rp_cost with
      | none => .err ("Vehicle not found or rp_cost missing")
      | some c =>
        if c = 0 then .err ("Vehicle not found or rp_cost missing")
        else
          let rc : Int := req.rp_current.getD 0
          let t := averages_from_recent req.recent_battles
          let avg_rp : ℚ :=
            if 0 < t.1 then t.1 else qTruthyD req.avg_rp_per_battle 0
          let avg_min : ℚ :=
            if 0 < t.2.1 then t.2.1 else qTruthyD req.avg_battle_minutes 9
          let effective := effective_rp_per_battle avg_rp req.has_premium
            req.booster_percent req.skill_bonus_percent
          let remaining : Int := max 0 (c - rc)
          let battles : Option Int :=
            if remaining = 0 then some 0
            else if effective ≤ 0 then none
            else some ⌈(remaining : ℚ) / effective⌉
          let minutes : Option Int :=
            battles.map (fun (b : Int) => pyRound ((b : ℚ) * avg_min))
          let hours : Option ℚ :=
            minutes.map (fun (m : Int) => qRound2 ((m : ℚ) / 60))
          let ge : Int := if 0 < remaining then ⌈(remaining : ℚ) / 45⌉ else 0
          .ok
            { vehicle_id := v.id
              vehicle_name := v.name
              rp_cost := c
              rp_current := rc
              rp_remaining := remaining
              avg_rp_round := qRound2 avg_rp
              avg_min_round := qRound2 avg_min
              samples := t.2.2
              effective := effective
              battles_needed := battles
              minutes_needed := minutes
              hours_needed := hours
              ge_cost_by_rate := ge
              prerequisite_ids := prerequisites_for g req.vehicle_id }

/-- One line of the cascade's itemized breakdown. -/
structure BreakdownEntry where
  id : Int
  name : String
  rank : Int
  rp_cost : Int
  rp_current : Int
  rp_remaining : Int
  done : Bool
deriving Repr, DecidableEq

/-- The successful payload of `POST /api/calc/cascade`. -/
structure CascadeOk where
  target_id : Int
  target_name : String
  avg_rp_round : ℚ
  avg_min_round : ℚ
  samples : Nat
  effective : ℚ
  required_ids : List Int
  breakdown : List BreakdownEntry
  rp_total_remaining : Int
  battles_needed : Option Int
  minutes_needed : Option Int
  hours_needed : Option ℚ
  ge_cost_by_rate : Int
deriving Repr, DecidableEq

/-- Result of `POST /api/calc/cascade`. -/
inductive CascadeResult where
  | err (msg : String)
  | ok (r : CascadeOk)
deriving Repr, DecidableEq

/-- `get_prog(vid)` of `calc_cascade`: the progress record for a vehicle,
defaulting to `rp_current = 0, done = false`. -/
def get_prog (prog : List (Int × ProgressEntry)) (vid : Int) : Int × Bool :=
  match (prog.find? (fun x => x.1 == vid)).map (fun x => x.2) with
  | some e => (e.rp_current.getD 0, e.done)
  | none => (0, false)

/-- The cascade's per-row sort key chain
`(rank_id or 0, br_rb or br_ab or br_sb or 0.0, name)` uses Python `or`,
so a `0.0` battle rating also falls through. -/
def pyBr (v : Vehicle) : ℚ :=
  qTruthyD v.br_rb (qTruthyD v.br_ab (qTruthyD v.br_sb 0))

/-- Ascending order used by `rows.sort(...)` inside `calc_cascade`. -/
def rowLE (a b : Vehicle) : Prop :=
  a.rank_id < b.rank_id ∨ (a.rank_id = b.rank_id ∧
    (pyBr a < pyBr b ∨ (pyBr a = pyBr b ∧ a.name ≤ b.name)))

instance : DecidableRel rowLE := fun a b => by unfold rowLE; infer_instance

/-- One iteration of the cascade's per-vehicle loop: cost (missing cost
read as 0), progress lookup, and remaining RP. -/
def cascRow (prog : List (Int × ProgressEntry)) (v : Vehicle) :
    BreakdownEntry :=
  let rp_total : Int := v.rp_cost.getD 0
  let pr := get_prog prog v.id
  let rp_rem : Int := if pr.2 then 0 else max 0 (rp_total - pr.1)
  { id := v.id
    name := v.name
    rank := v.rank_id
    rp_cost := rp_total
    rp_current := pr.1
    rp_remaining := rp_rem
    done := pr.2 }

/-- `calc_cascade` (`POST /api/calc/cascade`). -/
def calc_cascade (g : Graph) (req : CascadeReq) : CascadeResult :=
  if req.vehicle_id = 0 then .err ("vehicle_id is required")
  else
    match getVehicle g req.vehicle_id with
    | none => .err ("Vehicle not found")
    | some target =>
      let t := averages_from_recent req.recent_battles
      let avg_rp : ℚ :=
        if t.1 = 0 then qTruthyD req.avg_rp_per_battle 0 else t.1
      let avg_min : ℚ :=
        if t.2.1 = 0 then qTruthyD req.avg_battle_minutes 9 else t.2.1
      let effective := effective_rp_per_battle avg_rp req.has_premium
        req.booster_percent req.skill_bonus_percent
      let required : List Int :=
        req.vehicle_id :: all_prerequisites_recursive g req.vehicle_id
      let rows := g.vehicles.filter (fun v => decide (v.id ∈ required))
      let sorted := List.insertionSort rowLE rows
      let breakdown := sorted.map (cascRow req.progress)
      let total : Int := breakdown.foldl
        (fun acc e => if 0 < e.rp_remaining then acc + e.rp_remaining else acc) 0
      let battles : Option Int :=
        if total = 0 then some 0
        else if effective ≤ 0 then none
        else some ⌈(total : ℚ) / effective⌉
      let minutes : Option Int :=
        if total = 0 then some 0
        else if effective ≤ 0 then none
        else battles.map (fun (b : Int) => pyRound ((b : ℚ) * avg_min))
      let hours : Option ℚ :=
        minutes.map (fun (m : Int) => qRound2 ((m : ℚ) / 60))
      let ge : Int := if 0 < total then ⌈(total : ℚ) / 45⌉ else 0
      .ok
        { target_id := target.id
          target_name := target.name
          avg_rp_round := qRound2 avg_rp
          avg_min_round := qRound2 avg_min
          samples := t.2.2
          effective := effective
          required_ids := required
          breakdown := breakdown
          rp_total_remaining := total
          battles_needed := battles
          minutes_needed := minutes
          hours_needed := hours
          ge_cost_by_rate := ge }

/-- The ascending order the spec prescribes for folder siblings:
`(rank, coalesce(br_rb, br_ab, br_sb, 0), name)` — a second definition that
follows the spec's words (all-NULL battle ratings count as `0`), to be
compared with the code's `sibLE`. -/
def specSibLE (a b : Vehicle) : Prop :=
  a.rank_id < b.rank_id ∨ (a.rank_id = b.rank_id ∧
    (cbrQ a < cbrQ b ∨ (cbrQ a = cbrQ b ∧ a.name ≤ b.name)))

instance : DecidableRel specSibLE := fun a b => by unfold specSibLE; infer_instance

/-- The sibling list ordered as the spec prescribes (coalesce to 0). -/
def spec_list_variants (g : Graph) (parent_id : Int) : List Vehicle :=
  List.insertionSort specSibLE
    (g.vehicles.filter (fun s => s.folder_of == some parent_id))

/-- The previous sibling as the spec prescribes: the element immediately
before the target in the spec's sibling order, or none if it is first. -/
def spec_prev_variant (g : Graph) (v : Vehicle) : Option Int :=
  match v.folder_of with
  | none => none
  | some p =>
    if p = 0 then none
    else (prevScan (spec_list_variants g p) v.id none).map (fun s => s.id)

/-- Normalization of recent battles as the spec's words describe it
(`normalize_recent_battles`): each positive-RP sample contributes its RP
divided by its own bonus stack — with no clamping of the denominator — to
be compared with the code's `averages_from_recent`. -/
def spec_normalize_recent_battles (recent : List Sample) : ℚ × ℚ × Nat :=
  let kept := recent.filter (fun s => decide (0 < s.rp))
  let posm := recent.filter (fun s => decide (0 < s.minutes))
  ((if kept.isEmpty then 0
    else (kept.map (fun s => s.rp / sampleDenom s)).sum / kept.length),
   (if posm.isEmpty then 9 else (posm.map (fun s => s.minutes)).sum / posm.length),
   kept.length)

/-- The claim's per-vehicle contribution to the cascade total: `0` if the
progress record says done, else `max 0 (rp_cost - rp_current)`, with an
absent progress entry defaulting to `rp_current = 0, done = false`. -/
def requiredContribution (g : Graph) (prog : List (Int × ProgressEntry))
    (i : Int) : Int :=
  match getVehicle g i with
  | none => 0
  | some v =>
    let pr := get_prog prog i
    if pr.2 then 0 else max 0 (v.rp_cost.getD 0 - pr.1)

/-- Whether an estimate result is the structured 400 error. -/
def estIsErr : EstimateResult → Bool
  | .err _ => true
  | .ok _ => false

/-- The `battles_needed` field of a successful estimate. -/
def estBattles : EstimateResult → Option (Option Int)
  | .err _ => none
  | .ok r => some r.battles_needed

/-- The `effective_rp_per_battle` field of a successful estimate. -/
def estEffective : EstimateResult → Option ℚ
  | .err _ => none
  | .ok r => some r.effective

/-- Vehicle `A` of the spec's worked example: id 1, rp_cost 12000. -/
def vExA : Vehicle :=
  { id := 1, name := "A", rank_id := 1, br_ab := none, br_rb := none,
    br_sb := none, rp_cost := some 12000, ge_cost := none,
    folder_of := none, is_premium := false, is_collector := false }

/-- Vehicle `B` of the spec's worked example: id 2, prerequisite of `A`. -/
def vExB : Vehicle :=
  { id := 2, name := "B", rank_id := 1, br_ab := none, br_rb := none,
    br_sb := none, rp_cost := some 10000, ge_cost := none,
    folder_of := none, is_premium := false, is_collector := false }

/-- Concrete catalog for the worked example of the spec: vehicle `A`
(id 1, rp_cost 12000) with prerequisite edge `B → A` (B has id 2). -/
def gEx : Graph :=
  { vehicles := [vExA, vExB],
    edges := [ { parent_id := 2, child_id := 1, unlock_rp := none } ] }

/-- Estimate request of the worked example: target A, `rp_current = 0`,
`avg_rp_per_battle = 500`, premium account. -/
def reqEx : EstimateReq :=
  { vehicle_id := 1, rp_current := some 0, avg_rp_per_battle := some 500,
    avg_battle_minutes := none, has_premium := true, booster_percent := none,
    skill_bonus_percent := none, recent_battles := [] }

/-- Cascade request over `gEx` used by the C1 witness. -/
def reqCasEx : CascadeReq :=
  { vehicle_id := 1, has_premium := true, booster_percent := none,
    skill_bonus_percent := none, avg_rp_per_battle := some 500,
    avg_battle_minutes := some 10, recent_battles := [],
    progress := [(2, { rp_current := some 4000, done := false })] }

/-- A vehicle whose `rp_cost` is defined but equal to `0`
(Python truthiness then treats it as missing). -/
def vZeroCost : Vehicle :=
  { id := 1, name := "Z", rank_id := 1, br_ab := none, br_rb := none,
    br_sb := none, rp_cost := some 0, ge_cost := none,
    folder_of := none, is_premium := false, is_collector := false }

/-- Catalog containing only the zero-cost vehicle. -/
def gZeroCost : Graph := { vehicles := [vZeroCost], edges := [] }

/-- Estimate request aimed at the zero-cost vehicle. -/
def reqZeroCost : EstimateReq :=
  { vehicle_id := 1, rp_current := some 0, avg_rp_per_battle := some 500,
    avg_battle_minutes := none, has_premium := false, booster_percent := none,
    skill_bonus_percent := none, recent_battles := [] }

/-- A recent-battle sample whose own bonus stack is negative
(booster −300% gives stack `1 + (−300)/100 = −2`). -/
def sNegStack : Sample :=
  { rp := 1000, minutes := 0, premium := false,
    booster_percent := some (-300), skill_bonus_percent := none }

/-- A premium-flagged recent battle: 1000 RP in 10 minutes. -/
def sPremium : Sample :=
  { rp := 1000, minutes := 10, premium := true, booster_percent := none,
    skill_bonus_percent := none }

/-- Folder parent of the sibling-order counterexample. -/
def vParent : Vehicle :=
  { id := 1, name := "P", rank_id := 1, br_ab := none, br_rb := none,
    br_sb := none, rp_cost := some 1000, ge_cost := none, folder_of := none,
    is_premium := false, is_collector := false }

/-- Variant `a`: battle rating −1 (a value below the spec's 0 default). -/
def vVarA : Vehicle :=
  { id := 2, name := "a", rank_id := 1, br_ab := none, br_rb := some (-1),
    br_sb := none, rp_cost := some 1000, ge_cost := none, folder_of := some 1,
    is_premium := false, is_collector := false }

/-- Variant `b`: all battle ratings NULL. -/
def vVarB : Vehicle :=
  { id := 3, name := "b", rank_id := 1, br_ab := none, br_rb := none,
    br_sb := none, rp_cost := some 1000, ge_cost := none, folder_of := some 1,
    is_premium := false, is_collector := false }

/-- Catalog for the sibling-order counterexample. -/
def gFolder : Graph := { vehicles := [vParent, vVarA, vVarB], edges := [] }

/-- A vehicle whose `rp_cost` is NULL. -/
def vNoCost : Vehicle :=
  { id := 2, name := "N", rank_id := 1, br_ab := none, br_rb := none,
    br_sb := none, rp_cost := none, ge_cost := none, folder_of := none,
    is_premium := false, is_collector := false }

/-- Catalog with a single vehicle whose `rp_cost` is NULL. -/
def gNoCost : Graph := { vehicles := [vNoCost], edges := [] }

/-- Estimate request for an id absent from `gNoCost`. -/
def reqMissing : EstimateReq :=
  { vehicle_id := 1, rp_current := none, avg_rp_per_battle := some 500,
    avg_battle_minutes := none, has_premium := false, booster_percent := none,
    skill_bonus_percent := none, recent_battles := [] }

/-- Estimate request for the NULL-cost vehicle of `gNoCost`. -/
def reqNoCost : EstimateReq :=
  { vehicle_id := 2, rp_current := none, avg_rp_per_battle := some 500,
    avg_battle_minutes := none, has_premium := false, booster_percent := none,
    skill_bonus_percent := none, recent_battles := [] }

/-- Target vehicle of the missing-cost cascade scenario (id 1, cost 5000). -/
def vCascT : Vehicle :=
  { id := 1, name := "T", rank_id := 2, br_ab := none, br_rb := none,
    br_sb := none, rp_cost := some 5000, ge_cost := none,
    folder_of := none, is_premium := false, is_collector := false }

/-- Required vehicle of the missing-cost cascade scenario: `rp_cost` NULL. -/
def vCascU : Vehicle :=
  { id := 2, name := "U", rank_id := 1, br_ab := none, br_rb := none,
    br_sb := none, rp_cost := none, ge_cost := none,
    folder_of := none, is_premium := false, is_collector := false }

/-- Catalog for the missing-cost cascade scenario: target 1 costs 5000 and
requires vehicle 2, whose `rp_cost` is NULL. -/
def gCascNull : Graph :=
  { vehicles := [vCascT, vCascU],
    edges := [ { parent_id := 2, child_id := 1, unlock_rp := none } ] }

/-- Cascade request over `gCascNull` with some progress on vehicle 2. -/
def reqCascNull : CascadeReq :=
  { vehicle_id := 1, has_premium := false, booster_percent := none,
    skill_bonus_percent := none, avg_rp_per_battle := some 500,
    avg_battle_minutes := some 10, recent_battles := [],
    progress := [(2, { rp_current := some 100, done := false })] }

/-- Closed form of `effective_rp_per_battle`: a missing or zero percent
contributes a factor of `1`, exactly as multiplying by
`1 + percent/100` with the percent read as `0`. -/
theorem effective_eq (avg : ℚ) (p : Bool) (b s : Option Int) :
    effective_rp_per_battle avg p b s =
      max 0 (avg * (if p then (2 : ℚ) else 1) *
        (1 + ((b.getD 0 : Int) : ℚ) / 100) * (1 + ((s.getD 0 : Int) : ℚ) / 100)) := by
  have hfac : ∀ (m : ℚ) (x : Int),
      (if x = 0 then m else m * (1 + (x : ℚ) / 100)) = m * (1 + (x : ℚ) / 100) := by
    intro m x
    split_ifs with h
    · subst h; norm_num
    · rfl
  unfold effective_rp_per_battle PREMIUM_RP_MULT
  rcases b with _ | b <;> rcases s with _ | s <;> cases p <;>
    simp only [Option.getD, hfac, Int.cast_zero] <;> (congr 1; push_cast; ring)

/-- Rounding `0` gives `0`. -/
theorem pyRound_zero : pyRound 0 = 0 := by norm_num [pyRound]

/-- `max 0` is monotone. -/
theorem max0_mono {x y : ℚ} (h : x ≤ y) : max 0 x ≤ max 0 y :=
  max_le_max le_rfl h

/-- C3: for every profile, `effective_rp_per_battle` is the base average
times 2 when premium, times `1 + pct/100` for each present percent, with a
missing percent acting as a factor of 1, floored at 0; in particular a base
of 500 with premium gives 1000, and the worked example (rp_cost 12000,
rp_current 0) yields `battles_needed = 12`. -/
theorem c3_effective_formula :
    (∀ (avg : ℚ) (p : Bool) (b s : Option Int),
      effective_rp_per_battle avg p b s =
        max 0 (avg * (if p then (2 : ℚ) else 1) *
          (match b with | some x => 1 + (x : ℚ) / 100 | none => 1) *
          (match s with | some x => 1 + (x : ℚ) / 100 | none => 1)))
    ∧ effective_rp_per_battle 500 true none none = 1000
    ∧ estEffective (calc_estimate gEx reqEx) = some 1000
    ∧ estBattles (calc_estimate gEx reqEx) = some (some 12) := by
  refine ⟨?_, by rw [effective_eq]; norm_num, ?_, ?_⟩
  · intro avg p b s
    rw [effective_eq]
    rcases b with _ | b <;> rcases s with _ | s <;> simp
  · norm_num [estEffective, calc_estimate, gEx, reqEx, vExA, vExB, getVehicle,
      List.find?, averages_from_recent, collectRecent, qTruthyD,
      effective_rp_per_battle, PREMIUM_RP_MULT]
  · norm_num [estBattles, calc_estimate, gEx, reqEx, vExA, vExB, getVehicle,
      List.find?, averages_from_recent, collectRecent, qTruthyD,
      effective_rp_per_battle, PREMIUM_RP_MULT]

/-- C8 counterexample: with base average 100 and skill percent fixed at
−300 (a negative bonus factor), raising the booster percent from −200 to 0
lowers `effective_rp_per_battle` from 200 to 0, so the function is not
monotone in the booster percent for every fixed setting of the others. -/
theorem c8_counterexample :
    (-200 : Int) ≤ 0 ∧ (0 : ℚ) ≤ 100 ∧
    effective_rp_per_battle 100 false (some (-200)) (some (-300)) = 200 ∧
    effective_rp_per_battle 100 false (some 0) (some (-300)) = 0 ∧
    ¬ effective_rp_per_battle 100 false (some (-200)) (some (-300)) ≤
        effective_rp_per_battle 100 false (some 0) (some (-300)) := by
  refine ⟨by norm_num, by norm_num, ?_, ?_, ?_⟩
  · rw [effective_eq]; norm_num
  · rw [effective_eq]; norm_num
  · rw [effective_eq, effective_eq]; norm_num

/-- C8 as amended: `effective_rp_per_battle` is monotone in `has_premium`
unconditionally, and monotone in the booster (resp. skill) percent for a
non-negative base average provided the skill (resp. booster) percent, read
as 0 when absent, is at least −100 — the counterexample shows the
restriction is needed. -/
theorem c8_amended :
    (∀ (avg : ℚ) (b s : Option Int),
      effective_rp_per_battle avg false b s ≤ effective_rp_per_battle avg true b s)
    ∧ (∀ (avg : ℚ) (p : Bool) (s : Option Int) (b1 b2 : Option Int),
        0 ≤ avg → (-100 : Int) ≤ s.getD 0 → b1.getD 0 ≤ b2.getD 0 →
        effective_rp_per_battle avg p b1 s ≤ effective_rp_per_battle avg p b2 s)
    ∧ (∀ (avg : ℚ) (p : Bool) (b : Option Int) (s1 s2 : Option Int),
        0 ≤ avg → (-100 : Int) ≤ b.getD 0 → s1.getD 0 ≤ s2.getD 0 →
        effective_rp_per_battle avg p b s1 ≤ effective_rp_per_battle avg p b s2) := by
  have hkey : ∀ (c : ℚ) (x1 x2 : Int), 0 ≤ c → x1 ≤ x2 →
      max 0 (c * (1 + (x1 : ℚ) / 100)) ≤ max 0 (c * (1 + (x2 : ℚ) / 100)) := by
    intro c x1 x2 hc hx
    apply max0_mono
    have hx' : (x1 : ℚ) ≤ (x2 : ℚ) := by exact_mod_cast hx
    have h12 : (1 + (x1 : ℚ) / 100) ≤ 1 + (x2 : ℚ) / 100 := by linarith
    exact mul_le_mul_of_nonneg_left h12 hc
  have hfac : ∀ (y : Int), (-100 : Int) ≤ y → (0 : ℚ) ≤ 1 + (y : ℚ) / 100 := by
    intro y hy
    have hy' : ((-100 : Int) : ℚ) ≤ (y : ℚ) := by exact_mod_cast hy
    push_cast at hy'
    linarith
  refine ⟨?_, ?_, ?_⟩
  · intro avg b s
    rw [effective_eq, effective_eq]
    set y : ℚ := avg * 1 * (1 + ((b.getD 0 : Int) : ℚ) / 100) *
      (1 + ((s.getD 0 : Int) : ℚ) / 100) with hy
    have h2 : avg * 2 * (1 + ((b.getD 0 : Int) : ℚ) / 100) *
        (1 + ((s.getD 0 : Int) : ℚ) / 100) = 2 * y := by rw [hy]; ring
    simp only [if_true, if_false, Bool.false_eq_true]
    rw [h2]
    rcases le_or_lt y 0 with h | h
    · calc max 0 y = 0 := max_eq_left h
        _ ≤ max 0 (2 * y) := le_max_left _ _
    · exact max0_mono (by linarith)
  · intro avg p s b1 b2 ha hs hb
    rw [effective_eq, effective_eq]
    have hc : 0 ≤ avg * (if p then (2 : ℚ) else 1) *
        (1 + ((s.getD 0 : Int) : ℚ) / 100) := by
      apply mul_nonneg (mul_nonneg ha ?_) (hfac _ hs)
      split <;> norm_num
    calc max 0 (avg * (if p then (2 : ℚ) else 1) * (1 + ((b1.getD 0 : Int) : ℚ) / 100) *
          (1 + ((s.getD 0 : Int) : ℚ) / 100))
        = max 0 ((avg * (if p then (2 : ℚ) else 1) * (1 + ((s.getD 0 : Int) : ℚ) / 100)) *
          (1 + ((b1.getD 0 : Int) : ℚ) / 100)) := by ring_nf
      _ ≤ max 0 ((avg * (if p then (2 : ℚ) else 1) * (1 + ((s.getD 0 : Int) : ℚ) / 100)) *
          (1 + ((b2.getD 0 : Int) : ℚ) / 100)) := hkey _ _ _ hc hb
      _ = max 0 (avg * (if p then (2 : ℚ) else 1) * (1 + ((b2.getD 0 : Int) : ℚ) / 100) *
          (1 + ((s.getD 0 : Int) : ℚ) / 100)) := by ring_nf
  · intro avg p b s1 s2 ha hb hs
    rw [effective_eq, effective_eq]
    have hc : 0 ≤ avg * (if p then (2 : ℚ) else 1) *
        (1 + ((b.getD 0 : Int) : ℚ) / 100) := by
      apply mul_nonneg (mul_nonneg ha ?_) (hfac _ hb)
      split <;> norm_num
    exact hkey _ _ _ hc hs

/-- Witness for the amended C8 at a concrete input. -/
theorem c8_amended_witness :
    ((0 : ℚ) ≤ 500 ∧ (-100 : Int) ≤ (some (10 : Int)).getD 0 ∧
      (some (5 : Int)).getD 0 ≤ (some (20 : Int)).getD 0) ∧
    effective_rp_per_battle 500 false (some 5) (some 10) ≤
      effective_rp_per_battle 500 false (some 20) (some 10) :=
  ⟨⟨by norm_num, by simp, by simp⟩,
    c8_amended.2.1 500 false (some 10) (some 5) (some 20) (by norm_num)
      (by simp) (by simp)⟩

/-- C7 counterexample: the vehicle-not-found condition and the
missing-cost condition return the very same structured error value, so the
two error kinds are not distinguishable to the caller. -/
theorem c7_counterexample :
    calc_estimate gNoCost reqMissing = .err ("Vehicle not found or rp_cost missing") ∧
    calc_estimate gNoCost reqNoCost = .err ("Vehicle not found or rp_cost missing") ∧
    calc_estimate gNoCost reqMissing = calc_estimate gNoCost reqNoCost ∧
    getVehicle gNoCost reqMissing.vehicle_id = none ∧
    (∃ v, getVehicle gNoCost reqNoCost.vehicle_id = some v ∧ v.rp_cost = none) := by
  refine ⟨?_, ?_, ?_, ?_, ⟨vNoCost, ?_, rfl⟩⟩
  · simp [calc_estimate, gNoCost, reqMissing, getVehicle, List.find?, vNoCost]
  · simp [calc_estimate, gNoCost, reqNoCost, getVehicle, List.find?, vNoCost]
  · simp [calc_estimate, gNoCost, reqMissing, reqNoCost, getVehicle, List.find?, vNoCost]
  · simp [gNoCost, reqMissing, getVehicle, List.find?, vNoCost]
  · simp [gNoCost, reqNoCost, getVehicle, List.find?, vNoCost]

/-- C7 as amended: a not-found vehicle and a missing (or zero, by Python
truthiness) `rp_cost` both produce the same single structured error result
— caller-visible and never an uncaught failure, but not two distinguishable
kinds. -/
theorem c7_amended (g : Graph) (req : EstimateReq)
    (h0 : req.vehicle_id ≠ 0)
    (h : getVehicle g req.vehicle_id = none ∨
      (∃ v, getVehicle g req.vehicle_id = some v ∧
        (v.rp_cost = none ∨ v.rp_cost = some 0))) :
    calc_estimate g req = .err ("Vehicle not found or rp_cost missing") := by
  rcases h with h | ⟨v, hv, hc | hc⟩
  · simp [calc_estimate, h0, h]
  · simp [calc_estimate, h0, hv, hc]
  · simp [calc_estimate, h0, hv, hc]

/-- Witness for the amended C7 at a concrete input. -/
theorem c7_amended_witness :
    (reqMissing.vehicle_id ≠ 0 ∧ getVehicle gNoCost reqMissing.vehicle_id = none) ∧
    calc_estimate gNoCost reqMissing = .err ("Vehicle not found or rp_cost missing") :=
  ⟨⟨by decide, by simp [gNoCost, reqMissing, getVehicle, List.find?, vNoCost]⟩,
    c7_amended gNoCost reqMissing (by decide)
      (Or.inl (by simp [gNoCost, reqMissing, getVehicle, List.find?, vNoCost]))⟩

/-- C2 counterexample: a vehicle with a defined `rp_cost` of `0` is found,
yet the endpoint answers with the 400 error (Python truthiness treats the
cost as missing), instead of the successful `battles_needed = 0` result the
claim demands. -/
theorem c2_counterexample :
    (∃ v, getVehicle gZeroCost reqZeroCost.vehicle_id = some v ∧
      v.rp_cost = some 0) ∧
    estIsErr (calc_estimate gZeroCost reqZeroCost) = true := by
  refine ⟨⟨vZeroCost, ?_, rfl⟩, ?_⟩
  · simp [gZeroCost, reqZeroCost, getVehicle, List.find?, vZeroCost]
  · simp [estIsErr, calc_estimate, gZeroCost, reqZeroCost, getVehicle,
      List.find?, vZeroCost]

/-- C2 as amended: for an estimate on a found vehicle with a defined and
nonzero `rp_cost`, the result is successful with
`remaining = max 0 (rp_cost - rp_current)`; `remaining = 0` gives
`battles_needed = 0` and `minutes_needed = 0`; a positive remainder with a
non-positive effective rate gives the explicit indeterminate value `none`
(not zero and not an error); otherwise battles is the ceiling of
remaining / effective. -/
theorem c2_amended (g : Graph) (req : EstimateReq) (v : Vehicle) (c : Int)
    (h0 : req.vehicle_id ≠ 0) (hv : getVehicle g req.vehicle_id = some v)
    (hc : v.rp_cost = some c) (hcz : c ≠ 0) :
    ∃ r, calc_estimate g req = .ok r ∧
      r.rp_remaining = max 0 (c - req.rp_current.getD 0) ∧
      (r.rp_remaining = 0 → r.battles_needed = some 0 ∧ r.minutes_needed = some 0) ∧
      (0 < r.rp_remaining → r.effective ≤ 0 →
        r.battles_needed = none ∧ r.battles_needed ≠ some 0) ∧
      (0 < r.rp_remaining → 0 < r.effective →
        r.battles_needed = some ⌈(r.rp_remaining : ℚ) / r.effective⌉) := by
  simp only [calc_estimate, if_neg h0, hv, hc, if_neg hcz]
  refine ⟨_, rfl, rfl, ?_, ?_, ?_⟩
  · intro hrem
    simp only [if_pos hrem, Option.map_some]
    simp [pyRound_zero]
  · intro hrem heff
    simp only [if_neg hrem.ne', if_pos heff]
    simp
  · intro hrem heff
    simp only [if_neg hrem.ne', if_neg (not_le.mpr heff)]

/-- Witness for the amended C2 at a concrete input. -/
theorem c2_amended_witness :
    (reqEx.vehicle_id ≠ 0 ∧
      getVehicle gEx reqEx.vehicle_id = some vExA ∧
      vExA.rp_cost = some 12000 ∧ (12000 : Int) ≠ 0) ∧
    (∃ r, calc_estimate gEx reqEx = .ok r ∧
      r.rp_remaining = max 0 (12000 - reqEx.rp_current.getD 0) ∧
      (r.rp_remaining = 0 → r.battles_needed = some 0 ∧ r.minutes_needed = some 0) ∧
      (0 < r.rp_remaining → r.effective ≤ 0 →
        r.battles_needed = none ∧ r.battles_needed ≠ some 0) ∧
      (0 < r.rp_remaining → 0 < r.effective →
        r.battles_needed = some ⌈(r.rp_remaining : ℚ) / r.effective⌉)) :=
  ⟨⟨by decide, by simp [gEx, reqEx, getVehicle, List.find?, vExA],
      by simp [vExA], by decide⟩,
    c2_amended gEx reqEx vExA 12000 (by decide)
      (by simp [gEx, reqEx, getVehicle, List.find?, vExA])
      (by simp [vExA]) (by decide)⟩

/-- The collection loop of `averages_from_recent` in closed form: a
filter/map over the samples. -/
theorem collectRecent_eq (l : List Sample) :
    collectRecent l =
      ((l.filter (fun s => decide (0 < s.rp))).map
          (fun s => s.rp / max (sampleDenom s) denomEps),
       (l.filter (fun s => decide (0 < s.minutes))).map (fun s => s.minutes)) := by
  induction l with
  | nil => rfl
  | cons s rest ih =>
    have h1 : (0 < max 0 s.rp) ↔ 0 < s.rp := by simp [lt_max_iff]
    have h2 : (0 < max 0 s.minutes) ↔ 0 < s.minutes := by simp [lt_max_iff]
    by_cases hr : 0 < s.rp <;> by_cases hm : 0 < s.minutes
    · simp [collectRecent, ih, List.filter_cons, hr, hm, h1, h2,
        max_eq_right hr.le, max_eq_right hm.le]
    · simp [collectRecent, ih, List.filter_cons, hr, hm, h1, h2,
        max_eq_right hr.le]
    · simp [collectRecent, ih, List.filter_cons, hr, hm, h1, h2,
        max_eq_right hm.le]
    · simp [collectRecent, ih, List.filter_cons, hr, hm, h1, h2]

/-- C4 counterexample: for a sample whose own bonus stack is negative
(booster −300% gives the stack `1 − 3 = −2`), the code divides by
`max(stack, 1e-9) = 1e-9` and reports an average of 10^12, not by the
sample's bonus stack itself, which would give −500 as the spec's
`normalize_recent_battles` describes. -/
theorem c4_counterexample :
    sampleDenom sNegStack = -2 ∧
    (averages_from_recent [sNegStack]).1 = 1000000000000 ∧
    (spec_normalize_recent_battles [sNegStack]).1 = -500 ∧
    (averages_from_recent [sNegStack]).1 ≠ (spec_normalize_recent_battles [sNegStack]).1 := by
  refine ⟨?_, ?_, ?_, ?_⟩
  · norm_num [sampleDenom, sNegStack, PREMIUM_RP_MULT]
  · norm_num [averages_from_recent, collectRecent, sNegStack, sampleDenom,
      PREMIUM_RP_MULT, denomEps]
  · norm_num [spec_normalize_recent_battles, sNegStack, sampleDenom,
      PREMIUM_RP_MULT]
  · norm_num [averages_from_recent, collectRecent, spec_normalize_recent_battles,
      sNegStack, sampleDenom, PREMIUM_RP_MULT, denomEps]

/-- C4 as amended: for at most 5 samples, the returned triple is the
closed-form average where each positive-RP sample's reported RP is divided
by its own bonus stack clamped below at `1e-9` (not by the raw stack),
positive-minute samples feed a separate minutes average defaulting to 9,
and the count is the number of positive-RP samples; the premium example
gives base RP 500. -/
theorem c4_amended :
    (∀ (recent : List Sample), recent.length ≤ 5 →
      averages_from_recent recent =
        ((if (recent.filter (fun s => decide (0 < s.rp))).isEmpty then 0
          else ((recent.filter (fun s => decide (0 < s.rp))).map
              (fun s => s.rp / max (sampleDenom s) denomEps)).sum /
            (recent.filter (fun s => decide (0 < s.rp))).length),
         (if (recent.filter (fun s => decide (0 < s.minutes))).isEmpty then 9
          else ((recent.filter (fun s => decide (0 < s.minutes))).map
              (fun s => s.minutes)).sum /
            (recent.filter (fun s => decide (0 < s.minutes))).length),
         (recent.filter (fun s => decide (0 < s.rp))).length))
    ∧ averages_from_recent [sPremium] = (500, 10, 1) := by
  constructor
  · intro recent h
    unfold averages_from_recent
    rw [List.take_of_length_le h, collectRecent_eq]
    simp
  · norm_num [averages_from_recent, collectRecent, sPremium, sampleDenom,
      PREMIUM_RP_MULT, denomEps]

/-- Witness for the amended C4 at a concrete input. -/
theorem c4_amended_witness :
    ([sPremium].length ≤ 5) ∧
    averages_from_recent [sPremium] =
      ((if ([sPremium].filter (fun s => decide (0 < s.rp))).isEmpty then 0
        else (([sPremium].filter (fun s => decide (0 < s.rp))).map
            (fun s => s.rp / max (sampleDenom s) denomEps)).sum /
          ([sPremium].filter (fun s => decide (0 < s.rp))).length),
       (if ([sPremium].filter (fun s => decide (0 < s.minutes))).isEmpty then 9
        else (([sPremium].filter (fun s => decide (0 < s.minutes))).map
            (fun s => s.minutes)).sum /
          ([sPremium].filter (fun s => decide (0 < s.minutes))).length),
       ([sPremium].filter (fun s => decide (0 < s.rp))).length) :=
  ⟨by norm_num, c4_amended.1 [sPremium] (by norm_num)⟩

/-- An element produced by the sibling scan comes from the scanned list or
from the accumulator. -/
theorem prevScan_mem :
    ∀ (L : List Vehicle) (vid : Int) (acc : Option Vehicle) (s : Vehicle),
      prevScan L vid acc = some s → s ∈ L ∨ acc = some s := by
  intro L
  induction L with
  | nil => intro vid acc s h; exact Or.inr h
  | cons a t ih =>
    intro vid acc s h
    by_cases ha : a.id = vid
    · simp only [prevScan, if_pos ha] at h
      exact Or.inr h
    · simp only [prevScan, if_neg ha] at h
      rcases ih vid (some a) s h with h2 | h2
      · exact Or.inl (List.mem_cons_of_mem _ h2)
      · cases Option.some.inj h2
        exact Or.inl (List.mem_cons_self _ _)

/-- Every id returned by `prerequisites_for` lies in the universe list of
the graph. -/
theorem prerequisites_for_subset (g : Graph) (cur p : Int)
    (h : p ∈ prerequisites_for g cur) : p ∈ universeList g := by
  have hedge : ∀ q,
      q ∈ (g.edges.filter (fun e => e.child_id == cur)).map
          (fun e => e.parent_id) → q ∈ universeList g := by
    intro q hq
    rcases List.mem_map.mp hq with ⟨e, he, rfl⟩
    exact List.mem_append_left _ (List.mem_append_left _
      (List.mem_map_of_mem _ (List.mem_filter.mp he).1))
  simp only [prerequisites_for] at h
  cases hv : getVehicle g cur with
  | none => rw [hv] at h; simp at h
  | some v =>
    rw [hv] at h
    rw [List.mem_dedup] at h
    have hveh : v ∈ g.vehicles := List.mem_of_find?_eq_some hv
    cases hf : v.folder_of with
    | none => simp only [hf] at h; exact hedge p h
    | some f =>
      simp only [hf] at h
      by_cases hf0 : f = 0
      · rw [if_pos hf0] at h; exact hedge p h
      · rw [if_neg hf0] at h
        have hfU : f ∈ universeList g :=
          List.mem_append_left _ (List.mem_append_right _
            (List.mem_filterMap.mpr ⟨v, hveh, by rw [hf]⟩))
        cases hpv : prev_variant_id_if_any g v with
        | none =>
          simp only [hpv] at h
          rcases List.mem_append.mp h with h1 | h1
          · exact hedge p h1
          · rw [List.mem_singleton] at h1; rw [h1]; exact hfU
        | some pv =>
          simp only [hpv] at h
          have hpvU : pv ∈ universeList g := by
            simp only [prev_variant_id_if_any, hf, if_neg hf0] at hpv
            rcases Option.map_eq_some'.mp hpv with ⟨s, hs, rfl⟩
            rcases prevScan_mem _ _ _ _ hs with hsl | hsl
            · have hsv : s ∈ g.vehicles ∧ s.folder_of = some f := by
                simpa [list_variants_for_parent, List.mem_filter] using hsl
              exact List.mem_append_right _ (List.mem_map_of_mem _ hsv.1)
            · cases hsl
          by_cases hpv0 : pv = 0
          · rw [if_pos hpv0] at h
            rcases List.mem_append.mp h with h1 | h1
            · exact hedge p h1
            · rw [List.mem_singleton] at h1; rw [h1]; exact hfU
          · rw [if_neg hpv0] at h
            rcases List.mem_append.mp h with h1 | h1
            · rcases List.mem_append.mp h1 with h2 | h2
              · exact hedge p h2
              · rw [List.mem_singleton] at h2; rw [h2]; exact hfU
            · rw [List.mem_singleton] at h1; rw [h1]; exact hpvU

/-- The inner loop never increases the traversal measure
(stack size plus unvisited universe ids). -/
theorem aprStep_measure (g : Graph) :
    ∀ (ps visited req stack : List Int),
      (∀ p ∈ ps, p ∈ universeList g) →
      (aprStep visited req stack ps).2.2.length +
          ((universeList g).toFinset \ (aprStep visited req stack ps).1.toFinset).card ≤
        stack.length + ((universeList g).toFinset \ visited.toFinset).card := by
  intro ps
  induction ps with
  | nil => intro visited req stack _; simp [aprStep]
  | cons p ps ih =>
    intro visited req stack h
    by_cases hp : p ∈ visited
    · simp only [aprStep, if_pos hp]
      exact ih _ _ _ (fun q hq => h q (List.mem_cons_of_mem _ hq))
    · simp only [aprStep, if_neg hp]
      refine le_trans (ih _ _ _ (fun q hq => h q (List.mem_cons_of_mem _ hq))) ?_
      have hpU : p ∈ (universeList g).toFinset :=
        List.mem_toFinset.mpr (h p (List.mem_cons_self _ _))
      have hpV : p ∉ visited.toFinset := fun hc => hp (List.mem_toFinset.mp hc)
      have hmem : p ∈ (universeList g).toFinset \ visited.toFinset :=
        Finset.mem_sdiff.mpr ⟨hpU, hpV⟩
      have hcard : ((universeList g).toFinset \ (p :: visited).toFinset).card =
          ((universeList g).toFinset \ visited.toFinset).card - 1 := by
        rw [List.toFinset_cons, Finset.sdiff_insert, Finset.card_erase_of_mem hmem]
      have hpos : 1 ≤ ((universeList g).toFinset \ visited.toFinset).card :=
        Finset.card_pos.mpr ⟨p, hmem⟩
      simp only [List.length_cons, hcard]
      omega

/-- The visited set only grows during the inner loop. -/
theorem aprStep_visited_sub :
    ∀ (ps visited req stack : List Int),
      visited ⊆ (aprStep visited req stack ps).1 := by
  intro ps
  induction ps with
  | nil => intro visited req stack; simp [aprStep]
  | cons p ps ih =>
    intro visited req stack
    by_cases hp : p ∈ visited
    · simpa only [aprStep, if_pos hp] using ih visited req stack
    · simp only [aprStep, if_neg hp]
      exact List.Subset.trans (List.subset_cons_self _ _) (ih _ _ _)

/-- The accumulated result only grows during the inner loop. -/
theorem aprStep_req_sub :
    ∀ (ps visited req stack : List Int),
      req ⊆ (aprStep visited req stack ps).2.1 := by
  intro ps
  induction ps with
  | nil => intro visited req stack; simp [aprStep]
  | cons p ps ih =>
    intro visited req stack
    by_cases hp : p ∈ visited
    · simpa only [aprStep, if_pos hp] using ih visited req stack
    · simp only [aprStep, if_neg hp]
      exact List.Subset.trans (List.subset_cons_self _ _) (ih _ _ _)

/-- The inner loop preserves the traversal invariant: `x` stays visited
and outside the result, the result stays inside the visited set, and the
result stays duplicate-free. -/
theorem aprStep_inv (x : Int) :
    ∀ (ps visited req stack : List Int),
      x ∈ visited → x ∉ req → req ⊆ visited → req.Nodup →
      x ∈ (aprStep visited req stack ps).1 ∧
        x ∉ (aprStep visited req stack ps).2.1 ∧
        (aprStep visited req stack ps).2.1 ⊆ (aprStep visited req stack ps).1 ∧
        (aprStep visited req stack ps).2.1.Nodup := by
  intro ps
  induction ps with
  | nil => intro visited req stack hx hxr hrv hnd; simpa [aprStep] using ⟨hx, hxr, hrv, hnd⟩
  | cons p ps ih =>
    intro visited req stack hx hxr hrv hnd
    by_cases hp : p ∈ visited
    · simpa only [aprStep, if_pos hp] using ih visited req stack hx hxr hrv hnd
    · simp only [aprStep, if_neg hp]
      have hpx : p ≠ x := fun hc => hp (hc ▸ hx)
      refine ih (p :: visited) (p :: req) (p :: stack)
        (List.mem_cons_of_mem _ hx) ?_ ?_ ?_
      · intro hc
        rcases List.mem_cons.mp hc with hc | hc
        · exact hpx hc.symm
        · exact hxr hc
      · intro q hq
        rcases List.mem_cons.mp hq with hq | hq
        · exact hq ▸ List.mem_cons_self _ _
        · exact List.mem_cons_of_mem _ (hrv hq)
      · exact List.nodup_cons.mpr ⟨fun hc => hp (hrv hc), hnd⟩

/-- Every processed prerequisite ends up in the result or was already
visited. -/
theorem aprStep_mem (p : Int) :
    ∀ (ps visited req stack : List Int), p ∈ ps →
      p ∈ (aprStep visited req stack ps).2.1 ∨ p ∈ visited := by
  intro ps
  induction ps with
  | nil => intro visited req stack h; cases h
  | cons q qs ih =>
    intro visited req stack h
    by_cases hq : q ∈ visited
    · simp only [aprStep, if_pos hq]
      rcases List.mem_cons.mp h with h | h
      · exact Or.inr (h ▸ hq)
      · exact ih visited req stack h
    · simp only [aprStep, if_neg hq]
      rcases List.mem_cons.mp h with h | h
      · subst h
        exact Or.inl (aprStep_req_sub qs _ _ _ (List.mem_cons_self _ _))
      · rcases ih (q :: visited) (q :: req) (q :: stack) h with h2 | h2
        · exact Or.inl h2
        · rcases List.mem_cons.mp h2 with h2 | h2
          · subst h2
            exact Or.inl (aprStep_req_sub qs _ _ _ (List.mem_cons_self _ _))
          · exact Or.inr h2

/-- The traversal loop completes (returns `some`) whenever the fuel
exceeds the measure — the code's termination argument: the visited set
bounds the possible pushes by the universe size. -/
theorem aprWorker_isSome (g : Graph) :
    ∀ (fuel : Nat) (visited req stack : List Int),
      stack.length + ((universeList g).toFinset \ visited.toFinset).card < fuel →
      (aprWorker g fuel visited req stack).isSome := by
  intro fuel
  induction fuel with
  | zero => intro visited req stack h; omega
  | succ n ih =>
    intro visited req stack h
    cases stack with
    | nil => simp [aprWorker]
    | cons cur rest =>
      simp only [aprWorker]
      apply ih
      have hm := aprStep_measure g (prerequisites_for g cur) visited req rest
        (fun p hp => prerequisites_for_subset g cur p hp)
      simp only [List.length_cons] at h
      omega

/-- The worker's result excludes `x` whenever `x` starts visited and
outside the accumulator, contains the accumulator, and has no
duplicates. -/
theorem aprWorker_inv (g : Graph) (x : Int) :
    ∀ (fuel : Nat) (visited req stack out : List Int),
      x ∈ visited → x ∉ req → req ⊆ visited → req.Nodup →
      aprWorker g fuel visited req stack = some out →
      x ∉ out ∧ out.Nodup ∧ req ⊆ out := by
  intro fuel
  induction fuel with
  | zero =>
    intro visited req stack out hx hxr hrv hnd h
    cases stack with
    | nil =>
      simp only [aprWorker, Option.some.injEq] at h
      subst h
      exact ⟨hxr, hnd, List.Subset.refl _⟩
    | cons cur rest => simp [aprWorker] at h
  | succ n ih =>
    intro visited req stack out hx hxr hrv hnd h
    cases stack with
    | nil =>
      simp only [aprWorker, Option.some.injEq] at h
      subst h
      exact ⟨hxr, hnd, List.Subset.refl _⟩
    | cons cur rest =>
      simp only [aprWorker] at h
      obtain ⟨h1, h2, h3, h4⟩ :=
        aprStep_inv x (prerequisites_for g cur) visited req rest hx hxr hrv hnd
      obtain ⟨o1, o2, o3⟩ := ih _ _ _ _ h1 h2 h3 h4 h
      exact ⟨o1, o2, List.Subset.trans (aprStep_req_sub _ _ _ _) o3⟩

/-- The chosen fuel bound always suffices: the worker returns `some` and
`all_prerequisites_recursive` is its value. -/
theorem apr_runs (g : Graph) (vid : Int) :
    ∃ out, aprWorker g (aprBound g) [vid] [] [vid] = some out ∧
      all_prerequisites_recursive g vid = out := by
  have hcard : ((universeList g).toFinset \ [vid].toFinset).card ≤
      (universeList g).length :=
    le_trans (Finset.card_le_card Finset.sdiff_subset)
      (List.toFinset_card_le _)
  have h := aprWorker_isSome g (aprBound g) [vid] [] [vid]
    (by simp only [List.length_singleton, aprBound]; omega)
  obtain ⟨out, hout⟩ := Option.isSome_iff_exists.mp h
  exact ⟨out, hout, by simp [all_prerequisites_recursive, hout]⟩

/-- The start id never appears in the result, and the result has no
duplicates. -/
theorem apr_props (g : Graph) (vid : Int) :
    vid ∉ all_prerequisites_recursive g vid ∧
      (all_prerequisites_recursive g vid).Nodup := by
  obtain ⟨out, hw, heq⟩ := apr_runs g vid
  obtain ⟨o1, o2, _⟩ := aprWorker_inv g vid (aprBound g) [vid] [] [vid] out
    (List.mem_singleton.mpr rfl) (List.not_mem_nil _) (List.nil_subset _)
    List.nodup_nil hw
  rw [heq]
  exact ⟨o1, o2⟩

/-- Every immediate prerequisite other than the start itself appears in
the transitive closure. -/
theorem apr_immediate (g : Graph) (vid : Int) :
    ∀ p ∈ prerequisites_for g vid, p ≠ vid →
      p ∈ all_prerequisites_recursive g vid := by
  obtain ⟨out, hw, heq⟩ := apr_runs g vid
  intro p hp hne
  have hb : aprBound g = ((universeList g).length + 1) + 1 := rfl
  rw [hb] at hw
  simp only [aprWorker] at hw
  have hmem := aprStep_mem p (prerequisites_for g vid) [vid] [] [] hp
  rcases hmem with hmem | hmem
  case inr => exact absurd (List.mem_singleton.mp hmem) hne
  obtain ⟨h1, h2, h3, h4⟩ :=
    aprStep_inv vid (prerequisites_for g vid) [vid] [] []
      (List.mem_singleton.mpr rfl) (List.not_mem_nil _) (List.nil_subset _)
      List.nodup_nil
  obtain ⟨_, _, hsub⟩ := aprWorker_inv g vid ((universeList g).length + 1)
    _ _ _ out h1 h2 h3 h4 hw
  rw [heq]
  exact hsub hmem

/-- C5: the transitive-prerequisite set never contains the starting
vehicle id (even when the graph has a cycle through it, since the visited
set is seeded with the start), and the computation is deterministic, so two
calls on the same graph return the same set. -/
theorem c5_no_self_and_idempotent (g : Graph) (vid : Int) :
    vid ∉ all_prerequisites_recursive g vid ∧
      all_prerequisites_recursive g vid = all_prerequisites_recursive g vid :=
  ⟨(apr_props g vid).1, rfl⟩

/-- C9: for every finite graph, cyclic ones included, the
transitive-prerequisite expansion terminates: with the fuel bound derived
from the graph (edges, folder links and vehicle ids, plus the start) the
worker returns `some` — the visited set lets each id be enqueued at most
once, so iterations are bounded by the graph's size — and
`all_prerequisites_recursive` is exactly that completed run's result. -/
theorem c9_termination (g : Graph) (vid : Int) :
    (aprWorker g (aprBound g) [vid] [] [vid]).isSome ∧
      aprWorker g (aprBound g) [vid] [] [vid] =
        some (all_prerequisites_recursive g vid) := by
  obtain ⟨out, hw, heq⟩ := apr_runs g vid
  exact ⟨by simp [hw], by rw [hw, heq]⟩

/-- With duplicate-free ids, looking a vehicle's own id up in the catalog
finds that vehicle. -/
theorem find_id_self :
    ∀ (l : List Vehicle), (l.map (fun v => v.id)).Nodup →
      ∀ v ∈ l, l.find? (fun w => w.id == v.id) = some v := by
  intro l
  induction l with
  | nil => intro _ v hv; cases hv
  | cons a t ih =>
    intro hnd v hv
    rw [List.map_cons, List.nodup_cons] at hnd
    by_cases ha : a.id = v.id
    · rw [List.find?_cons_of_pos _ (by simpa using ha)]
      rcases List.mem_cons.mp hv with rfl | hv
      · rfl
      · exact absurd (ha ▸ List.mem_map_of_mem (fun w => w.id) hv) hnd.1
    · rw [List.find?_cons_of_neg _ (by simpa using ha)]
      rcases List.mem_cons.mp hv with rfl | hv
      · exact absurd rfl ha
      · exact ih hnd.2 v hv

/-- `getVehicle` version of `find_id_self`. -/
theorem getVehicle_self (g : Graph)
    (hnd : (g.vehicles.map (fun v => v.id)).Nodup) (v : Vehicle)
    (hv : v ∈ g.vehicles) : getVehicle g v.id = some v :=
  find_id_self g.vehicles hnd v hv

/-- A breakdown line never carries a negative remainder. -/
theorem cascRow_nonneg (prog : List (Int × ProgressEntry)) (v : Vehicle) :
    0 ≤ (cascRow prog v).rp_remaining := by
  unfold cascRow
  dsimp only
  split
  · exact le_refl 0
  · exact le_max_left 0 _

/-- The cascade's total fold over the breakdown equals the sum of the
per-line remainders. -/
theorem breakdown_foldl_eq_sum (prog : List (Int × ProgressEntry)) :
    ∀ (rows : List Vehicle) (acc : Int),
      (rows.map (cascRow prog)).foldl
          (fun a e => if 0 < e.rp_remaining then a + e.rp_remaining else a) acc =
        acc + (rows.map (fun v => (cascRow prog v).rp_remaining)).sum := by
  intro rows
  induction rows with
  | nil => intro acc; simp
  | cons v t ih =>
    intro acc
    by_cases h : 0 < (cascRow prog v).rp_remaining
    · simp only [List.map_cons, List.foldl_cons, if_pos h, List.sum_cons, ih]
      ring
    · have hz : (cascRow prog v).rp_remaining = 0 :=
        le_antisymm (not_lt.mp h) (cascRow_nonneg prog v)
      simp only [List.map_cons, List.foldl_cons, if_neg h, List.sum_cons, ih, hz]
      simp

/-- With duplicate-free ids, a row's remainder is the claim's per-vehicle
contribution at the row's id. -/
theorem cascRow_contrib (g : Graph)
    (hnd : (g.vehicles.map (fun v => v.id)).Nodup)
    (prog : List (Int × ProgressEntry)) (v : Vehicle) (hv : v ∈ g.vehicles) :
    (cascRow prog v).rp_remaining = requiredContribution g prog v.id := by
  unfold requiredContribution
  rw [getVehicle_self g hnd v hv]
  rfl

/-- C1: for a cascade with a found target (over a catalog with
duplicate-free ids whose required ids all exist and carry a defined
rp_cost), the required set is exactly
`all_prerequisites_recursive(target) ∪ {target}` — in particular a
superset of the immediate prerequisites plus the target — and
`rp_total_remaining` is the sum over that set of the per-vehicle
contribution: 0 when the progress record (defaulting to
`rp_current = 0, done = false`) says done, else
`max 0 (rp_cost - rp_current)`. -/
theorem c1_cascade (g : Graph) (req : CascadeReq) (target : Vehicle)
    (h0 : req.vehicle_id ≠ 0)
    (hv : getVehicle g req.vehicle_id = some target)
    (hnd : (g.vehicles.map (fun v => v.id)).Nodup)
    (hex : ∀ i ∈ all_prerequisites_recursive g req.vehicle_id,
      ∃ v ∈ g.vehicles, v.id = i)
    (_hcost : ∀ v ∈ g.vehicles,
      v.id ∈ req.vehicle_id :: all_prerequisites_recursive g req.vehicle_id →
      v.rp_cost.isSome = true) :
    ∃ res, calc_cascade g req = .ok res ∧
      res.required_ids.toFinset =
        insert req.vehicle_id
          (all_prerequisites_recursive g req.vehicle_id).toFinset ∧
      (prerequisites_for g req.vehicle_id).toFinset ⊆ res.required_ids.toFinset ∧
      req.vehicle_id ∈ res.required_ids.toFinset ∧
      res.rp_total_remaining =
        res.required_ids.toFinset.sum
          (fun i => requiredContribution g req.progress i) := by
  have htmem : target ∈ g.vehicles := List.mem_of_find?_eq_some hv
  have htid : target.id = req.vehicle_id := by
    have := List.find?_some hv
    simpa using this
  simp only [calc_cascade, if_neg h0, hv]
  refine ⟨_, rfl, ?_, ?_, ?_, ?_⟩
  · exact List.toFinset_cons
  · intro x hx
    rw [List.mem_toFinset] at hx ⊢
    by_cases hxv : x = req.vehicle_id
    · exact hxv ▸ List.mem_cons_self _ _
    · exact List.mem_cons_of_mem _ (apr_immediate g req.vehicle_id x hx hxv)
  · simp
  · rw [breakdown_foldl_eq_sum, zero_add]
    have hsmem : ∀ v ∈ List.insertionSort rowLE (g.vehicles.filter
        (fun w => decide (w.id ∈
          req.vehicle_id :: all_prerequisites_recursive g req.vehicle_id))),
        v ∈ g.vehicles := by
      intro v hvm
      exact (List.mem_filter.mp ((List.mem_insertionSort rowLE).mp hvm)).1
    rw [List.map_congr_left (fun v hvm =>
      cascRow_contrib g hnd req.progress v (hsmem v hvm))]
    rw [((List.perm_insertionSort rowLE _).map
      (fun v => requiredContribution g req.progress v.id)).sum_eq]
    have hidnd : ((g.vehicles.filter (fun w => decide (w.id ∈
        req.vehicle_id :: all_prerequisites_recursive g req.vehicle_id))).map
          (fun v => v.id)).Nodup :=
      List.Nodup.sublist (List.Sublist.map (fun v : Vehicle => v.id)
        (List.filter_sublist g.vehicles)) hnd
    rw [show (fun v : Vehicle => requiredContribution g req.progress v.id) =
      ((fun i => requiredContribution g req.progress i) ∘ (fun v : Vehicle => v.id))
      from rfl]
    rw [← List.map_map]
    have hsum := List.sum_toFinset
      (fun i => requiredContribution g req.progress i) hidnd
    have hset : ((g.vehicles.filter (fun w => decide (w.id ∈
        req.vehicle_id :: all_prerequisites_recursive g req.vehicle_id))).map
          (fun v => v.id)).toFinset =
        (req.vehicle_id :: all_prerequisites_recursive g req.vehicle_id).toFinset := by
      ext i
      simp only [List.mem_toFinset, List.mem_map, List.mem_filter, List.mem_cons,
        decide_eq_true_eq]
      constructor
      · rintro ⟨v, ⟨_, hin⟩, rfl⟩
        exact hin
      · intro hi
        rcases hi with rfl | hi
        · exact ⟨target, ⟨htmem, Or.inl htid⟩, htid⟩
        · rcases hex i hi with ⟨v, hvveh, hvid⟩
          exact ⟨v, ⟨hvveh, Or.inr (hvid ▸ hi)⟩, hvid⟩
    exact hsum.symm.trans (by rw [hset])

/-- Witness for C1 at a concrete input: cascade to vehicle A over the
example graph. -/
theorem c1_cascade_witness :
    (reqCasEx.vehicle_id ≠ 0 ∧
      getVehicle gEx reqCasEx.vehicle_id = some vExA ∧
      (gEx.vehicles.map (fun v => v.id)).Nodup ∧
      (∀ i ∈ all_prerequisites_recursive gEx reqCasEx.vehicle_id,
        ∃ v ∈ gEx.vehicles, v.id = i) ∧
      (∀ v ∈ gEx.vehicles,
        v.id ∈ reqCasEx.vehicle_id ::
          all_prerequisites_recursive gEx reqCasEx.vehicle_id →
        v.rp_cost.isSome = true)) ∧
    (∃ res, calc_cascade gEx reqCasEx = .ok res ∧
      res.required_ids.toFinset =
        insert reqCasEx.vehicle_id
          (all_prerequisites_recursive gEx reqCasEx.vehicle_id).toFinset ∧
      (prerequisites_for gEx reqCasEx.vehicle_id).toFinset ⊆
        res.required_ids.toFinset ∧
      reqCasEx.vehicle_id ∈ res.required_ids.toFinset ∧
      res.rp_total_remaining =
        res.required_ids.toFinset.sum
          (fun i => requiredContribution gEx reqCasEx.progress i)) :=
  ⟨⟨by decide, by decide, by decide, by decide, by decide⟩,
    c1_cascade gEx reqCasEx vExA (by decide) (by decide) (by decide)
      (by decide) (by decide)⟩

/-- C10: in a cascade, a required vehicle whose `rp_cost` is NULL is
silently read as cost 0: its breakdown line shows `rp_cost = 0` and (for a
non-negative reported `rp_current`) `rp_remaining = 0`, so it contributes 0
to `rp_total_remaining` (which is the sum of the per-line remainders), and
the cascade still answers with the successful result, not a missing-cost
error. -/
theorem c10_missing_cost (g : Graph) (req : CascadeReq) (target v : Vehicle)
    (h0 : req.vehicle_id ≠ 0)
    (hv : getVehicle g req.vehicle_id = some target)
    (hveh : v ∈ g.vehicles)
    (hreq : v.id ∈ req.vehicle_id :: all_prerequisites_recursive g req.vehicle_id)
    (hcost : v.rp_cost = none)
    (hprog : 0 ≤ (get_prog req.progress v.id).1) :
    ∃ res, calc_cascade g req = .ok res ∧
      res.rp_total_remaining =
        (res.breakdown.map (fun e => e.rp_remaining)).sum ∧
      ∃ e ∈ res.breakdown, e.id = v.id ∧ e.rp_cost = 0 ∧ e.rp_remaining = 0 := by
  simp only [calc_cascade, if_neg h0, hv]
  refine ⟨_, rfl, ?_, ?_⟩
  · rw [breakdown_foldl_eq_sum, zero_add, List.map_map]
    rfl
  · refine ⟨cascRow req.progress v, ?_, rfl, ?_, ?_⟩
    · apply List.mem_map_of_mem
      rw [List.mem_insertionSort, List.mem_filter]
      exact ⟨hveh, by simpa using hreq⟩
    · simp [cascRow, hcost]
    · simp only [cascRow, hcost]
      split
      · rfl
      · have h1 : (Option.getD (none : Option Int) 0) -
            (get_prog req.progress v.id).1 ≤ 0 := by
          simp only [Option.getD]
          omega
        exact max_eq_left h1

/-- Witness for C10 at a concrete input: vehicle 2 (NULL cost) required by
target 1. -/
theorem c10_missing_cost_witness :
    (reqCascNull.vehicle_id ≠ 0 ∧
      getVehicle gCascNull reqCascNull.vehicle_id = some vCascT ∧
      vCascU ∈ gCascNull.vehicles ∧
      vCascU.id ∈ reqCascNull.vehicle_id ::
        all_prerequisites_recursive gCascNull reqCascNull.vehicle_id ∧
      vCascU.rp_cost = none ∧
      0 ≤ (get_prog reqCascNull.progress vCascU.id).1) ∧
    (∃ res, calc_cascade gCascNull reqCascNull = .ok res ∧
      res.rp_total_remaining =
        (res.breakdown.map (fun e => e.rp_remaining)).sum ∧
      ∃ e ∈ res.breakdown, e.id = vCascU.id ∧ e.rp_cost = 0 ∧
        e.rp_remaining = 0) :=
  ⟨⟨by decide, by decide, by decide, by decide, by decide, by decide⟩,
    c10_missing_cost gCascNull reqCascNull vCascT vCascU (by decide)
      (by decide) (by decide) (by decide) (by decide) (by decide)⟩

/-- The sibling scan returns the accumulator at the first occurrence of the
id, and otherwise the element just before that occurrence. -/
theorem prevScan_first :
    ∀ (L : List Vehicle) (vid : Int) (acc : Option Vehicle) (i : Nat)
      (hi : i < L.length),
      (L.get ⟨i, hi⟩).id = vid →
      (∀ (j : Nat) (hj : j < L.length), j < i → (L.get ⟨j, hj⟩).id ≠ vid) →
      prevScan L vid acc = if i = 0 then acc else L.get? (i - 1) := by
  intro L
  induction L with
  | nil => intro vid acc i hi; simp at hi
  | cons a t ih =>
    intro vid acc i hi hid hfirst
    by_cases ha : a.id = vid
    · have hi0 : i = 0 := by
        by_contra h
        exact hfirst 0 (by omega) (by omega) ha
      subst hi0
      simp [prevScan, ha]
    · have hi0 : i ≠ 0 := by
        intro h
        subst h
        exact ha hid
      obtain ⟨i', rfl⟩ : ∃ i', i = i' + 1 := ⟨i - 1, by omega⟩
      simp only [prevScan, if_neg ha]
      have hi' : i' < t.length := by
        simp only [List.length_cons] at hi
        omega
      have hid' : (t.get ⟨i', hi'⟩).id = vid := by
        simpa using hid
      have hfirst' : ∀ (j : Nat) (hj : j < t.length), j < i' →
          (t.get ⟨j, hj⟩).id ≠ vid := by
        intro j hj hji
        have := hfirst (j + 1) (by simp only [List.length_cons]; omega) (by omega)
        simpa using this
      rw [ih vid (some a) i' hi' hid' hfirst']
      rw [if_neg (Nat.succ_ne_zero i')]
      by_cases hz : i' = 0
      · subst hz
        simp
      · rw [if_neg hz]
        obtain ⟨k, rfl⟩ : ∃ k, i' = k + 1 := ⟨i' - 1, by omega⟩
        simp

/-- In a list whose ids have no duplicates, no earlier position carries the
id found at position `i`. -/
theorem get_id_ne_of_lt (L : List Vehicle)
    (hnd : (L.map (fun v => v.id)).Nodup) (i : Nat) (hi : i < L.length)
    (j : Nat) (hj : j < L.length) (hji : j < i) :
    (L.get ⟨j, hj⟩).id ≠ (L.get ⟨i, hi⟩).id := by
  intro heq
  have hlen : (L.map (fun v => v.id)).length = L.length := List.length_map _ _
  have h1 : (L.map (fun v => v.id)).get ⟨j, by omega⟩ =
      (L.map (fun v => v.id)).get ⟨i, by omega⟩ := by
    simp only [List.get_eq_getElem, List.getElem_map]
    exact heq
  have h2 := (List.Nodup.get_inj_iff hnd).mp h1
  have : j = i := by simpa using h2
  omega

/-- The sorted sibling list inherits duplicate-free ids from the
catalog. -/
theorem lvf_ids_nodup (g : Graph) (p : Int)
    (hnd : (g.vehicles.map (fun v => v.id)).Nodup) :
    ((list_variants_for_parent g p).map (fun v => v.id)).Nodup := by
  have hfil : ((g.vehicles.filter (fun s => s.folder_of == some p)).map
      (fun v => v.id)).Nodup :=
    List.Nodup.sublist (List.Sublist.map (fun v : Vehicle => v.id)
      (List.filter_sublist g.vehicles)) hnd
  have hperm := (List.perm_insertionSort sibLE
    (g.vehicles.filter (fun s => s.folder_of == some p))).map
      (fun v : Vehicle => v.id)
  exact hperm.nodup_iff.mpr hfil

/-- The code does not put variant `a` (battle rating −1) before the
all-NULL variant `b`: NULL sorts first. -/
theorem not_sibLE_A_B : ¬ sibLE vVarA vVarB := by
  simp [sibLE, cbrB, cbrQ, coalesce3, vVarA, vVarB]

/-- The code's sibling order for the counterexample folder:
the all-NULL variant `b` comes first. -/
theorem lvf_gFolder_eq : list_variants_for_parent gFolder 1 = [vVarB, vVarA] := by
  have hfil : gFolder.vehicles.filter (fun s => s.folder_of == some 1) =
      [vVarA, vVarB] := by
    simp [gFolder, vParent, vVarA, vVarB, List.filter]
  rw [list_variants_for_parent, hfil]
  simp [List.insertionSort, List.orderedInsert, not_sibLE_A_B]

/-- The spec's order puts variant `a` (key −1) before variant `b`
(key 0 after coalescing NULL to 0). -/
theorem spec_sibLE_A_B : specSibLE vVarA vVarB := by
  refine Or.inr ⟨rfl, Or.inl ?_⟩
  norm_num [cbrQ, coalesce3, vVarA, vVarB]

/-- The spec's sibling order for the counterexample folder. -/
theorem spec_lvf_gFolder_eq :
    spec_list_variants gFolder 1 = [vVarA, vVarB] := by
  have hfil : gFolder.vehicles.filter (fun s => s.folder_of == some 1) =
      [vVarA, vVarB] := by
    simp [gFolder, vParent, vVarA, vVarB, List.filter]
  rw [spec_list_variants, hfil]
  simp [List.insertionSort, List.orderedInsert, spec_sibLE_A_B]

/-- C6 counterexample: for the all-NULL-battle-rating variant `b`, the
code (SQL `coalesce(br_rb, br_ab, br_sb)` with NULLs ordered first)
reports no previous sibling, while the spec's ordering key
`coalesce(..., 0)` puts variant `a` (battle rating −1) before it, making
`a` its previous sibling. -/
theorem c6_counterexample :
    vVarB.folder_of = some 1 ∧
    prev_variant_id_if_any gFolder vVarB = none ∧
    spec_prev_variant gFolder vVarB = some vVarA.id ∧
    prev_variant_id_if_any gFolder vVarB ≠ spec_prev_variant gFolder vVarB := by
  have h1 : prev_variant_id_if_any gFolder vVarB = none := by
    simp [prev_variant_id_if_any, lvf_gFolder_eq, prevScan, vVarB]
  have h2 : spec_prev_variant gFolder vVarB = some vVarA.id := by
    simp [spec_prev_variant, spec_lvf_gFolder_eq, prevScan, vVarA, vVarB]
  refine ⟨rfl, h1, h2, ?_⟩
  rw [h1, h2]
  simp

/-- C6 as amended: the sibling list of a folder is the catalog's variants
with that `folder_of`, sorted ascending by
`(rank, coalesce(br_rb, br_ab, br_sb), name)` with an all-NULL battle
rating ordered before every numeric value (SQLite NULLS-first ascending,
rather than the spec's coalesce-to-0); the previous-sibling prerequisite is
the element immediately before the vehicle in that order, or none if it is
first. -/
theorem c6_amended (g : Graph) (v : Vehicle) (p : Int)
    (hnd : (g.vehicles.map (fun w => w.id)).Nodup)
    (_hv : v ∈ g.vehicles) (hf : v.folder_of = some p) (hp0 : p ≠ 0) :
    (list_variants_for_parent g p).Sorted sibLE ∧
    (list_variants_for_parent g p).Perm
      (g.vehicles.filter (fun s => s.folder_of == some p)) ∧
    ∀ (i : Nat) (hi : i < (list_variants_for_parent g p).length),
      ((list_variants_for_parent g p).get ⟨i, hi⟩).id = v.id →
      prev_variant_id_if_any g v =
        (if i = 0 then none
         else ((list_variants_for_parent g p).get? (i - 1)).map
           (fun s => s.id)) := by
  refine ⟨List.sorted_insertionSort _ _, List.perm_insertionSort _ _, ?_⟩
  intro i hi hid
  simp only [prev_variant_id_if_any, hf, if_neg hp0]
  rw [prevScan_first (list_variants_for_parent g p) v.id none i hi hid
    (fun j hj hji heq => get_id_ne_of_lt _ (lvf_ids_nodup g p hnd) i hi j hj hji
      (heq.trans hid.symm))]
  by_cases hz : i = 0
  · simp [hz]
  · simp [hz]

/-- Witness for the amended C6: variant `a` sits at index 1 of the
counterexample folder's order, so its previous sibling is variant `b`. -/
theorem c6_amended_witness :
    ((gFolder.vehicles.map (fun w => w.id)).Nodup ∧ vVarA ∈ gFolder.vehicles ∧
      vVarA.folder_of = some 1 ∧ (1 : Int) ≠ 0) ∧
    ((list_variants_for_parent gFolder 1).Sorted sibLE ∧
      (list_variants_for_parent gFolder 1).Perm
        (gFolder.vehicles.filter (fun s => s.folder_of == some 1)) ∧
      prev_variant_id_if_any gFolder vVarA =
        (if (1 : Nat) = 0 then none
         else ((list_variants_for_parent gFolder 1).get? (1 - 1)).map
           (fun s => s.id))) := by
  obtain ⟨hs, hp, hprev⟩ := c6_amended gFolder vVarA 1 (by decide)
    (by simp [gFolder]) rfl (by decide)
  have hlen : 1 < (list_variants_for_parent gFolder 1).length := by
    rw [lvf_gFolder_eq]
    decide
  have hget : ((list_variants_for_parent gFolder 1).get ⟨1, hlen⟩).id = vVarA.id := by
    have : (list_variants_for_parent gFolder 1).get ⟨1, hlen⟩ = vVarA := by
      simp [lvf_gFolder_eq]
    rw [this]
  refine ⟨⟨by decide, by simp [gFolder], rfl, by decide⟩, hs, hp, ?_⟩
  exact hprev 1 hlen hget
